import Mathlib

/-!
Verification of the embedding-store core of the Rust-Embedding repository:
`src/embeddings/storage.rs` (`save_embedding_to_jsonl`, the append / duplicate
detection path) and `src/embeddings/service.rs` (`compare_embeddings`, the
similarity ranker), against its natural-language specification.

Modelling choices (shallow embedding):
* A log file is `Option (List Line)`: `none` models an absent file and
  `some lines` the file's contents split into lines, as produced by
  `content.lines()`.  Each `Line` either fails to parse as a JSON value
  (`Line.malformed`, i.e. `serde_json::from_str` returns `Err`) or parses to a
  JSON value whose record-shaped field views form an `Entry`:
  `entry["text"].as_str()` becomes `text : Option String`,
  `from_value::<Vec<f64>>(entry["embedding"])` becomes
  `embedding : Option (List Rat)`, and so on.
* `f64` vector components and similarity scores are modelled as rationals.
  The one place where `f64` partiality is itself the subject of a claim — the
  `partial_cmp(..).unwrap()` comparator of the sort at service.rs:146,
  claim C10 — is modelled separately and faithfully by `FVal` (a numeric value
  or a NaN) and `fsortByDesc`, whose `none` result models a comparator panic.
* The function `crate::utils::similarity::cosine_similarity` is used by
  `compare_embeddings` but its defining module `src/utils/similarity.rs` is
  not among the provided source files, so the ranker is parameterised by the
  similarity function `sim`; a standalone `cosine_similarity` over real
  vectors is modelled from the spec for claim C9.
* Rust `Vec::sort_by` is a stable sort; with the comparator
  `|a, b| b.similarity.partial_cmp(&a.similarity).unwrap()` (a total order on
  non-NaN values) its output is the unique similarity-descending reordering
  that keeps ties in input order, which `sortDesc` (a stable descending
  insertion sort) computes.
-/

namespace RustEmbedding

/-- Field views of one parsed JSON log line, as `compare_embeddings` and
`save_embedding_to_jsonl` access them: each field is `some _` exactly when the
corresponding JSON field is present with the expected type
(`entry["text"].as_str()`, `from_value::<Vec<f64>>(entry["embedding"])`,
`entry["model"].as_str()`, `entry["embedding_type"].as_str()`). -/
structure Entry where
  text : Option String
  embedding : Option (List ℚ)
  model : Option String
  embedding_type : Option String
deriving DecidableEq, Repr

/-- One line of the log file: either it fails to parse as a JSON value
(`serde_json::from_str::<Value>(line)` is `Err`) or it parses with the field
views `e`. -/
inductive Line where
  | malformed : Line
  | valid (e : Entry) : Line
deriving DecidableEq, Repr

/-- View of a line used by `compare_embeddings`' parse step
(`.filter_map(|line| serde_json::from_str::<Value>(line).ok())`). -/
def lineView : Line → Option Entry
  | .malformed => none
  | .valid e => some e

/-- The `entries` vector of service.rs:100-102: all lines that parse as JSON,
in log order, with unparseable lines dropped. -/
def parsedEntries (lines : List Line) : List Entry :=
  lines.filterMap lineView

/-- `ComparisonResult` of lib.rs:50-60. -/
structure ComparisonResult where
  text : String
  similarity : ℚ
  embedding : Option (List ℚ)
  embedding_type : String
deriving DecidableEq, Repr

/-- Errors `compare_embeddings` can return, per the `?` on
`std::fs::read_to_string` (service.rs:95, an io error when the file is
absent) and the explicit "No similar embeddings found" error
(service.rs:154). -/
inductive CompareError where
  | ioError : CompareError
  | noResults : CompareError
deriving DecidableEq, Repr

/-- Errors `save_embedding_to_jsonl` can return: the `?` on
`serde_json::from_str` for an unparseable existing line (storage.rs:19, the
spec's MalformedLogError) and the explicit duplicate rejection
(storage.rs:30, the spec's DuplicateError). -/
inductive SaveError where
  | malformedLog : SaveError
  | duplicate : SaveError
deriving DecidableEq, Repr

/-- The de-duplication key of service.rs:110:
`format!("{}:{}", stored_text, stored_type)`. -/
def entryKey (e : Entry) : String :=
  e.text.getD "" ++ ":" ++ e.embedding_type.getD ""

/-- The category-filter test of service.rs:121-125: with a filter present,
an entry whose `embedding_type` differs is skipped. -/
def filterSkips (filter : Option String) (sty : String) : Bool :=
  match filter with
  | some t => sty != t
  | none => false

/-- Outcome of the per-entry checks in the loop body of
`compare_embeddings` (service.rs:105-143), in source order: the seen-set
check (line 111), the self-comparison check (line 116), the category filter
(lines 121-125), and the embedding deserialization (line 128). -/
inductive Decision where
  | skipDup : Decision
  | skipSelf : Decision
  | skipFilter : Decision
  | skipNoEmb : Decision
  | keep (v : List ℚ) : Decision
deriving DecidableEq, Repr

/-- The per-entry decision chain of the loop body of `compare_embeddings`,
translated check by check from service.rs:106-128. -/
def entryDecision (query : String) (filter : Option String)
    (seen : List String) (e : Entry) : Decision :=
  if entryKey e ∈ seen then .skipDup
  else if e.text.getD "" = query ∧ filter = some (e.embedding_type.getD "") then .skipSelf
  else if filterSkips filter (e.embedding_type.getD "") then .skipFilter
  else
    match e.embedding with
    | some v => .keep v
    | none => .skipNoEmb

/-- Construction of one `ComparisonResult` (service.rs:131-140); `sim` stands
for the imported `cosine_similarity` (service.rs:129). -/
def mkResult (sim : List ℚ → List ℚ → ℚ) (qemb : List ℚ) (inc : Bool)
    (e : Entry) (v : List ℚ) : ComparisonResult :=
  { text := e.text.getD ""
    similarity := sim qemb v
    embedding := if inc then some v else none
    embedding_type := e.embedding_type.getD "" }

/-- The `for entry in entries` loop of service.rs:105-143, accumulating the
`similarities` vector.  The key is added to `seen` for every first-occurrence
entry (service.rs:111 runs before the self and filter checks), so an entry
skipped by those later checks still shadows later lines with the same key. -/
def collectSims (sim : List ℚ → List ℚ → ℚ) (query : String) (qemb : List ℚ)
    (inc : Bool) (filter : Option String) :
    List Entry → List String → List ComparisonResult
  | [], _ => []
  | e :: es, seen =>
    match entryDecision query filter seen e with
    | .skipDup => collectSims sim query qemb inc filter es seen
    | .keep v =>
        mkResult sim qemb inc e v ::
          collectSims sim query qemb inc filter es (entryKey e :: seen)
    | _ => collectSims sim query qemb inc filter es (entryKey e :: seen)

/-- Stable descending insertion into a similarity-descending list: the new
element passes over strictly greater similarities and lands before the first
element of similarity ≤ its own, so equal-similarity elements that were
earlier in the input stay earlier. -/
def insertDesc (x : ComparisonResult) : List ComparisonResult → List ComparisonResult
  | [] => [x]
  | y :: ys => if x.similarity < y.similarity then y :: insertDesc x ys else x :: y :: ys

/-- The stable similarity-descending sort of service.rs:146,
`similarities.sort_by(|a, b| b.similarity.partial_cmp(&a.similarity).unwrap())`,
on non-NaN (here: rational) similarity values. -/
def sortDesc : List ComparisonResult → List ComparisonResult
  | [] => []
  | x :: xs => insertDesc x (sortDesc xs)

/-- The final result list of `compare_embeddings` before the empty-check:
collect (service.rs:96-143), sort (line 146), then `truncate(k)` when `top_k`
is supplied (lines 149-151). -/
def rankedList (sim : List ℚ → List ℚ → ℚ) (query : String) (qemb : List ℚ)
    (top_k : Option Nat) (inc : Bool) (filter : Option String)
    (lines : List Line) : List ComparisonResult :=
  let sorted := sortDesc (collectSims sim query qemb inc filter (parsedEntries lines) [])
  match top_k with
  | some k => sorted.take k
  | none => sorted

/-- `EmbeddingService::compare_embeddings` (service.rs:87-158).  The file read
of line 95 (`std::fs::read_to_string(..)?`) fails when the file is absent,
modelled by the `none` branch; otherwise the ranked list is computed and, per
lines 153-155, an empty final list with no filter supplied becomes the
"No similar embeddings found" error. -/
def compare_embeddings (sim : List ℚ → List ℚ → ℚ) (query : String)
    (qemb : List ℚ) (top_k : Option Nat) (inc : Bool) (filter : Option String)
    (file : Option (List Line)) : Except CompareError (List ComparisonResult) :=
  match file with
  | none => .error .ioError
  | some lines =>
    let truncated := rankedList sim query qemb top_k inc filter lines
    if truncated = [] ∧ filter = none then .error .noResults
    else .ok truncated

/-- The serialized record line written by storage.rs:33-45: a JSON object with
all four fields present. -/
def recordLine (text : String) (embedding : List ℚ) (model_name : String)
    (embedding_type : String) : Line :=
  .valid { text := some text, embedding := some embedding,
           model := some model_name, embedding_type := some embedding_type }

/-- The `existing_entries` read loop of storage.rs:17-21: every line is parsed
with `serde_json::from_str(line)?`, so the first unparseable line aborts the
whole call. -/
def parseAllLines : List Line → Except SaveError (List Entry)
  | [] => .ok []
  | .malformed :: _ => .error .malformedLog
  | .valid e :: rest => (parseAllLines rest).map (fun es => e :: es)

/-- `save_embedding_to_jsonl` (storage.rs:6-47).  `file = none` models an
absent file (`Path::new(output_file).exists()` false): no read happens and the
record is written to a fresh file.  Otherwise all lines are parsed (any
unparseable line is fatal), the duplicate scan of storage.rs:24-27 compares
`entry["text"].as_str() == Some(text)` and
`entry["embedding_type"].as_str() == Some(embedding_type)`, and on success the
record is appended as one new line.  The returned list is the new file
contents; an error means nothing was written. -/
def save_embedding_to_jsonl (text : String) (embedding : List ℚ)
    (file : Option (List Line)) (model_name : String) (embedding_type : String) :
    Except SaveError (List Line) :=
  match file with
  | none => .ok [recordLine text embedding model_name embedding_type]
  | some lines =>
    match parseAllLines lines with
    | .error err => .error err
    | .ok entries =>
      if entries.any (fun e =>
          decide (e.text = some text ∧ e.embedding_type = some embedding_type)) then
        .error .duplicate
      else
        .ok (lines ++ [recordLine text embedding model_name embedding_type])

/-- Arguments of one `append` call (`save_embedding` / `store_embedding`). -/
structure AppendReq where
  text : String
  embedding : List ℚ
  model : String
  embedding_type : String
deriving DecidableEq, Repr

/-- Effect of one `append` call on the log file: on success the file holds the
returned lines; on any error the file is untouched (the duplicate return of
storage.rs:30 happens before the file is opened for writing). -/
def stepAppend (st : Option (List Line)) (r : AppendReq) : Option (List Line) :=
  match save_embedding_to_jsonl r.text r.embedding st r.model r.embedding_type with
  | .ok newLines => some newLines
  | .error _ => st

/-- The log file after a sequence of `append` calls. -/
def runAppends (st : Option (List Line)) (reqs : List AppendReq) : Option (List Line) :=
  reqs.foldl stepAppend st

/-- Lines of a possibly-absent log file (an absent file reads as no lines). -/
def storeLines : Option (List Line) → List Line
  | none => []
  | some lines => lines

/-- The `(text, embedding_type)` identity keys of the parseable lines of a
log, in log order. -/
def entryKeys (lines : List Line) : List (Option String × Option String) :=
  (parsedEntries lines).map (fun e => (e.text, e.embedding_type))

/-- The per-entry decision chain with the self-comparison check of
service.rs:116 removed, used to state that with no category filter the
self-check never fires (claim C7). -/
def entryDecisionNoSelf (filter : Option String) (seen : List String)
    (e : Entry) : Decision :=
  if entryKey e ∈ seen then .skipDup
  else if filterSkips filter (e.embedding_type.getD "") then .skipFilter
  else
    match e.embedding with
    | some v => .keep v
    | none => .skipNoEmb

/-- The collection loop with the self-comparison check removed. -/
def collectNoSelf (sim : List ℚ → List ℚ → ℚ) (qemb : List ℚ)
    (inc : Bool) (filter : Option String) :
    List Entry → List String → List ComparisonResult
  | [], _ => []
  | e :: es, seen =>
    match entryDecisionNoSelf filter seen e with
    | .skipDup => collectNoSelf sim qemb inc filter es seen
    | .keep v =>
        mkResult sim qemb inc e v ::
          collectNoSelf sim qemb inc filter es (entryKey e :: seen)
    | _ => collectNoSelf sim qemb inc filter es (entryKey e :: seen)

/-- An `f64` similarity value as the sort comparator of service.rs:146 sees
it: a numeric (totally ordered) value or a NaN. -/
inductive FVal where
  | nan : FVal
  | num (q : ℚ) : FVal
deriving DecidableEq, Repr

/-- Rust `f64::partial_cmp`: `None` exactly when either operand is NaN. -/
def cmpOptF : FVal → FVal → Option Ordering
  | .num a, .num b => some (compare a b)
  | _, _ => none

/-- One insertion step of the stable descending sort over `f64` similarity
values, with the comparator `|a, b| b.partial_cmp(&a).unwrap()` of
service.rs:146: a `none` comparator result models the `unwrap` panic and
aborts the whole sort. -/
def finsertStep (x : FVal) : List FVal → Option (List FVal)
  | [] => some [x]
  | y :: ys =>
    match cmpOptF y x with
    | none => none
    | some Ordering.gt => (finsertStep x ys).map (fun zs => y :: zs)
    | some _ => some (x :: y :: ys)

/-- The sort of service.rs:146 over `f64` similarity values: `none` models a
panic of the `partial_cmp(..).unwrap()` comparator. -/
def fsortByDesc : List FVal → Option (List FVal)
  | [] => some []
  | x :: xs =>
    match fsortByDesc xs with
    | none => none
    | some s => finsertStep x s

/-- Sum of pairwise products, `dot(a, b)`, over real vectors. -/
noncomputable def dotList (a b : List ℝ) : ℝ :=
  (List.zipWith (fun x y => x * y) a b).sum

/-- Euclidean norm of a real vector. -/
noncomputable def normList (a : List ℝ) : ℝ :=
  Real.sqrt (dotList a a)

/-- Modelled from the spec: the repository imports
`crate::utils::similarity::cosine_similarity` (service.rs:3), whose defining
module `src/utils/similarity.rs` is not among the provided source files.
Per spec section 4.2 step 5 and the ZeroNormError entry of section 7, cosine
similarity is `dot(a,b) / (norm(a) * norm(b))` with a deterministic fallback
of 0 when either vector's norm is zero. -/
noncomputable def cosine_similarity (a b : List ℝ) : ℝ :=
  if normList a = 0 ∨ normList b = 0 then 0
  else dotList a b / (normList a * normList b)


/-- A line written by `save_embedding_to_jsonl` (all four JSON fields present). -/
def GoodLine (l : Line) : Prop :=
  ∃ t emb m ty, l = recordLine t emb m ty

/-- Invariant of a log file reachable by `append` calls alone: the file is
absent, or every line is a full record line and the `(text, embedding_type)`
keys are pairwise distinct. -/
def GoodStore : Option (List Line) → Prop
  | none => True
  | some lines => (∀ l ∈ lines, GoodLine l) ∧ (entryKeys lines).Nodup


deriving instance DecidableEq for Except

/-! ### Helper lemmas about the stable descending sort -/

theorem insertDesc_perm (x : ComparisonResult) (l : List ComparisonResult) :
    (insertDesc x l).Perm (x :: l) := by
  induction l with
  | nil => simp [insertDesc]
  | cons y ys ih =>
    rw [insertDesc]
    split
    · exact (ih.cons y).trans (List.Perm.swap x y ys)
    · exact List.Perm.refl _

theorem sortDesc_perm (l : List ComparisonResult) : (sortDesc l).Perm l := by
  induction l with
  | nil => simp [sortDesc]
  | cons x xs ih =>
    rw [sortDesc]
    exact (insertDesc_perm x (sortDesc xs)).trans (ih.cons x)

theorem insertDesc_pairwise {x : ComparisonResult} {l : List ComparisonResult}
    (h : List.Pairwise (fun a b => b.similarity ≤ a.similarity) l) :
    List.Pairwise (fun a b => b.similarity ≤ a.similarity) (insertDesc x l) := by
  induction l with
  | nil => simp [insertDesc]
  | cons y ys ih =>
    rw [List.pairwise_cons] at h
    obtain ⟨hy, hys⟩ := h
    rw [insertDesc]
    split
    case isTrue hlt =>
      rw [List.pairwise_cons]
      refine ⟨fun a ha => ?_, ih hys⟩
      have hax : a = x ∨ a ∈ ys := by
        have := (insertDesc_perm x ys).mem_iff.mp ha
        simpa using this
      rcases hax with rfl | hmem
      · exact le_of_lt hlt
      · exact hy a hmem
    case isFalse hge =>
      rw [List.pairwise_cons]
      refine ⟨fun a ha => ?_, List.pairwise_cons.mpr ⟨hy, hys⟩⟩
      rcases List.mem_cons.mp ha with rfl | hmem
      · exact le_of_not_lt hge
      · exact le_trans (hy a hmem) (le_of_not_lt hge)

theorem sortDesc_pairwise (l : List ComparisonResult) :
    List.Pairwise (fun a b => b.similarity ≤ a.similarity) (sortDesc l) := by
  induction l with
  | nil => simp [sortDesc]
  | cons x xs ih =>
    rw [sortDesc]
    exact insertDesc_pairwise ih

theorem filter_insertDesc_ne (x : ComparisonResult) (l : List ComparisonResult)
    (s : ℚ) (hx : x.similarity ≠ s) :
    (insertDesc x l).filter (fun r => decide (r.similarity = s))
      = l.filter (fun r => decide (r.similarity = s)) := by
  induction l with
  | nil => simp [insertDesc, hx]
  | cons y ys ih =>
    rw [insertDesc]
    split
    · simp only [List.filter_cons, ih]
    · simp [List.filter_cons, hx]

theorem filter_insertDesc_eq (x : ComparisonResult) (l : List ComparisonResult)
    (s : ℚ) (hx : x.similarity = s)
    (hl : List.Pairwise (fun a b => b.similarity ≤ a.similarity) l) :
    (insertDesc x l).filter (fun r => decide (r.similarity = s))
      = x :: l.filter (fun r => decide (r.similarity = s)) := by
  induction l with
  | nil => simp [insertDesc, hx]
  | cons y ys ih =>
    rw [List.pairwise_cons] at hl
    obtain ⟨hy, hys⟩ := hl
    rw [insertDesc]
    split
    case isTrue hlt =>
      have hyne : y.similarity ≠ s := by
        rw [← hx]
        exact ne_of_gt hlt
      simp [List.filter_cons, hyne, ih hys]
    case isFalse hge =>
      simp [List.filter_cons, hx]

theorem sortDesc_filter (l : List ComparisonResult) (s : ℚ) :
    (sortDesc l).filter (fun r => decide (r.similarity = s))
      = l.filter (fun r => decide (r.similarity = s)) := by
  induction l with
  | nil => rfl
  | cons x xs ih =>
    rw [sortDesc]
    by_cases hx : x.similarity = s
    · rw [filter_insertDesc_eq x _ s hx (sortDesc_pairwise xs), ih, List.filter_cons]
      simp [hx]
    · rw [filter_insertDesc_ne x _ s hx, ih, List.filter_cons]
      simp [hx]

/-! ### Helper lemmas about the collection loop and `compare_embeddings` -/

theorem entryDecision_keep {query : String} {filter : Option String}
    {seen : List String} {e : Entry} {v : List ℚ}
    (h : entryDecision query filter seen e = .keep v) :
    entryKey e ∉ seen
    ∧ filterSkips filter (e.embedding_type.getD "") = false
    ∧ e.embedding = some v := by
  unfold entryDecision at h
  split at h
  · exact absurd h (by simp)
  case isFalse hseen =>
    split at h
    · exact absurd h (by simp)
    · split at h
      · exact absurd h (by simp)
      case isFalse hfil =>
        refine ⟨hseen, by simpa using hfil, ?_⟩
        split at h
        case h_1 v' hv =>
          injection h with h'
          rw [hv, h']
        · exact absurd h (by simp)

theorem mem_collectSims_type {sim : List ℚ → List ℚ → ℚ} {query : String}
    {qemb : List ℚ} {inc : Bool} {C : String} {r : ComparisonResult} :
    ∀ {es : List Entry} {seen : List String},
      r ∈ collectSims sim query qemb inc (some C) es seen →
      r.embedding_type = C := by
  intro es
  induction es with
  | nil => intro seen h; simp [collectSims] at h
  | cons e es ih =>
    intro seen h
    rw [collectSims] at h
    split at h
    · exact ih h
    case h_2 v heq =>
      rcases List.mem_cons.mp h with rfl | hmem
      · obtain ⟨-, hf, -⟩ := entryDecision_keep heq
        have : ¬ (e.embedding_type.getD "" ≠ C) := by
          simpa [filterSkips] using hf
        simpa [mkResult] using not_not.mp this
      · exact ih hmem
    · exact ih h

theorem collectSims_none_eq_noSelf (sim : List ℚ → List ℚ → ℚ) (query : String)
    (qemb : List ℚ) (inc : Bool) :
    ∀ (es : List Entry) (seen : List String),
      collectSims sim query qemb inc none es seen
        = collectNoSelf sim qemb inc none es seen := by
  intro es
  induction es with
  | nil => intro seen; rfl
  | cons e es ih =>
    intro seen
    have hdec : entryDecision query none seen e = entryDecisionNoSelf none seen e := by
      unfold entryDecision entryDecisionNoSelf
      split
      · rfl
      · rw [if_neg]
        simp
    rw [collectSims, collectNoSelf, hdec]
    split <;> simp [ih]

theorem compare_ok_iff {sim : List ℚ → List ℚ → ℚ} {query : String}
    {qemb : List ℚ} {top_k : Option Nat} {inc : Bool} {filter : Option String}
    {lines : List Line} {res : List ComparisonResult} :
    compare_embeddings sim query qemb top_k inc filter (some lines) = .ok res ↔
      (res = rankedList sim query qemb top_k inc filter lines
        ∧ ¬(rankedList sim query qemb top_k inc filter lines = [] ∧ filter = none)) := by
  rw [compare_embeddings]
  split
  case isTrue h =>
    obtain ⟨h1, h2⟩ := h
    subst h2
    simp [h1]
  case isFalse h =>
    simp only [Except.ok.injEq]
    constructor
    · intro h'
      exact ⟨h'.symm, h⟩
    · intro hh
      exact hh.1.symm

/-! ### Helper lemmas about `save_embedding_to_jsonl` and append sequences -/

theorem parseAllLines_of_valid (lines : List Line)
    (h : ∀ l ∈ lines, l ≠ Line.malformed) :
    parseAllLines lines = .ok (parsedEntries lines) := by
  induction lines with
  | nil => rfl
  | cons l ls ih =>
    cases l with
    | malformed => exact absurd rfl (h _ (List.mem_cons_self _ _))
    | valid e =>
      rw [parseAllLines, ih (fun x hx => h x (List.mem_cons_of_mem _ hx))]
      simp [parsedEntries, lineView, List.filterMap_cons, Except.map]

theorem parseAllLines_malformed (lines : List Line) (h : Line.malformed ∈ lines) :
    parseAllLines lines = .error .malformedLog := by
  induction lines with
  | nil => cases h
  | cons l ls ih =>
    cases l with
    | malformed => rfl
    | valid e =>
      have hmem : Line.malformed ∈ ls := by simpa using h
      rw [parseAllLines, ih hmem]
      rfl

theorem entryKeys_append (l₁ l₂ : List Line) :
    entryKeys (l₁ ++ l₂) = entryKeys l₁ ++ entryKeys l₂ := by
  simp [entryKeys, parsedEntries, List.filterMap_append]

theorem save_some (t : String) (emb : List ℚ) (m ty : String) {lines : List Line}
    (hv : ∀ l ∈ lines, l ≠ Line.malformed) :
    save_embedding_to_jsonl t emb (some lines) m ty
      = if (parsedEntries lines).any (fun e =>
            decide (e.text = some t ∧ e.embedding_type = some ty)) then
          .error .duplicate
        else .ok (lines ++ [recordLine t emb m ty]) := by
  rw [save_embedding_to_jsonl, parseAllLines_of_valid lines hv]

theorem stepAppend_good {st : Option (List Line)} {r : AppendReq}
    (h : GoodStore st) : GoodStore (stepAppend st r) := by
  cases st with
  | none =>
    refine ⟨fun l hl => ?_, ?_⟩
    · rw [List.mem_singleton] at hl
      subst hl
      exact ⟨_, _, _, _, rfl⟩
    · simp [entryKeys, parsedEntries, recordLine, lineView, List.filterMap_cons]
  | some lines =>
    obtain ⟨hgl, hnd⟩ := h
    have hv : ∀ l ∈ lines, l ≠ Line.malformed := by
      intro l hl
      obtain ⟨t, emb, m, ty, rfl⟩ := hgl l hl
      simp [recordLine]
    rw [stepAppend, save_some r.text r.embedding r.model r.embedding_type hv]
    by_cases hdup : (parsedEntries lines).any (fun e =>
        decide (e.text = some r.text ∧ e.embedding_type = some r.embedding_type)) = true
    · rw [if_pos hdup]
      exact ⟨hgl, hnd⟩
    · rw [if_neg hdup]
      refine ⟨fun l hl => ?_, ?_⟩
      · rcases List.mem_append.mp hl with h1 | h2
        · exact hgl l h1
        · rw [List.mem_singleton] at h2
          subst h2
          exact ⟨_, _, _, _, rfl⟩
      · rw [entryKeys_append, List.nodup_append]
        refine ⟨hnd, by simp [entryKeys, parsedEntries, recordLine, lineView,
          List.filterMap_cons], ?_⟩
        intro k hk hk'
        have hkey : k = (some r.text, some r.embedding_type) := by
          simpa [entryKeys, parsedEntries, recordLine, lineView,
            List.filterMap_cons] using hk'
        subst hkey
        obtain ⟨e, he, hke⟩ : ∃ e ∈ parsedEntries lines,
            (e.text, e.embedding_type) = (some r.text, some r.embedding_type) := by
          simpa [entryKeys] using hk
        have he1 : e.text = some r.text := congrArg Prod.fst hke
        have he2 : e.embedding_type = some r.embedding_type := congrArg Prod.snd hke
        exact absurd (List.any_eq_true.mpr ⟨e, he, by simp [he1, he2]⟩) hdup

theorem runAppends_good (reqs : List AppendReq) :
    ∀ {st : Option (List Line)}, GoodStore st → GoodStore (runAppends st reqs) := by
  induction reqs with
  | nil => intro st h; exact h
  | cons r rs ih =>
    intro st h
    exact ih (stepAppend_good h)

theorem save_duplicate_of_mem {st : Option (List Line)} {r : AppendReq}
    (hg : GoodStore st)
    (hmem : ∃ e ∈ (storeLines st).filterMap lineView,
        e.text = some r.text ∧ e.embedding_type = some r.embedding_type) :
    save_embedding_to_jsonl r.text r.embedding st r.model r.embedding_type
      = .error .duplicate := by
  cases st with
  | none => simp [storeLines] at hmem
  | some lines =>
    obtain ⟨hgl, -⟩ := hg
    have hv : ∀ l ∈ lines, l ≠ Line.malformed := by
      intro l hl
      obtain ⟨t, emb, m, ty, rfl⟩ := hgl l hl
      simp [recordLine]
    rw [save_some r.text r.embedding r.model r.embedding_type hv]
    obtain ⟨e, he, h1, h2⟩ := hmem
    have he' : e ∈ parsedEntries lines := he
    rw [if_pos (List.any_eq_true.mpr ⟨e, he', by simp [h1, h2]⟩)]

/-! ### Helper lemmas about the `f64` sort comparator model -/

theorem finsertStep_total {x : FVal} (hx : x ≠ FVal.nan) :
    ∀ {l : List FVal}, (∀ y ∈ l, y ≠ FVal.nan) →
      ∃ s, finsertStep x l = some s ∧ ∀ y ∈ s, y = x ∨ y ∈ l := by
  intro l
  induction l with
  | nil =>
    intro _
    exact ⟨[x], rfl, by simp⟩
  | cons y ys ih =>
    intro h
    have hy := h y (List.mem_cons_self _ _)
    obtain ⟨qx, rfl⟩ : ∃ q, x = FVal.num q := by
      cases x with
      | nan => exact absurd rfl hx
      | num q => exact ⟨q, rfl⟩
    obtain ⟨qy, rfl⟩ : ∃ q, y = FVal.num q := by
      cases y with
      | nan => exact absurd rfl hy
      | num q => exact ⟨q, rfl⟩
    rw [finsertStep, cmpOptF]
    cases hc : compare qy qx with
    | gt =>
      obtain ⟨s, hs, hmem⟩ := ih (fun z hz => h z (List.mem_cons_of_mem _ hz))
      rw [hs]
      refine ⟨FVal.num qy :: s, rfl, fun z hz => ?_⟩
      rcases List.mem_cons.mp hz with rfl | hz'
      · exact Or.inr (List.mem_cons_self _ _)
      · rcases hmem z hz' with h' | h'
        · exact Or.inl h'
        · exact Or.inr (List.mem_cons_of_mem _ h')
    | lt =>
      refine ⟨_, rfl, fun z hz => ?_⟩
      rcases List.mem_cons.mp hz with rfl | hz'
      · exact Or.inl rfl
      · exact Or.inr hz'
    | eq =>
      refine ⟨_, rfl, fun z hz => ?_⟩
      rcases List.mem_cons.mp hz with rfl | hz'
      · exact Or.inl rfl
      · exact Or.inr hz'

theorem fsortByDesc_total' :
    ∀ {l : List FVal}, (∀ y ∈ l, y ≠ FVal.nan) →
      ∃ s, fsortByDesc l = some s ∧ ∀ y ∈ s, y ∈ l := by
  intro l
  induction l with
  | nil => exact fun _ => ⟨[], rfl, by simp⟩
  | cons x xs ih =>
    intro h
    have hx := h x (List.mem_cons_self _ _)
    obtain ⟨s, hs, hsub⟩ := ih (fun y hy => h y (List.mem_cons_of_mem _ hy))
    obtain ⟨s', hs', hmem⟩ := finsertStep_total hx
      (fun y hy => h y (List.mem_cons_of_mem _ (hsub y hy)))
    refine ⟨s', ?_, fun y hy => ?_⟩
    · rw [fsortByDesc, hs]
      exact hs'
    · rcases hmem y hy with rfl | h'
      · exact List.mem_cons_self _ _
      · exact List.mem_cons_of_mem _ (hsub y h')

theorem parsedEntries_filter_isSome (lines : List Line) :
    parsedEntries (lines.filter (fun l => (lineView l).isSome)) = parsedEntries lines := by
  induction lines with
  | nil => rfl
  | cons l ls ih =>
    cases l with
    | malformed =>
      simpa [parsedEntries, lineView, List.filter_cons, List.filterMap_cons] using ih
    | valid e =>
      simp [parsedEntries, lineView, List.filter_cons, List.filterMap_cons] at *
      exact ih

/-! ### Claim theorems -/

/-- Claim C4: `rank` fails with NoResultsError exactly when the final result
list is empty and no category filter was supplied; with a category filter
supplied the call returns the (possibly empty) ranked list normally, never the
NoResultsError. -/
theorem empty_result_asymmetry (sim : List ℚ → List ℚ → ℚ) (query : String)
    (qemb : List ℚ) (top_k : Option Nat) (inc : Bool) (filter : Option String)
    (lines : List Line) :
    (compare_embeddings sim query qemb top_k inc filter (some lines)
        = .error .noResults
      ↔ (rankedList sim query qemb top_k inc filter lines = [] ∧ filter = none))
    ∧ ∀ C, filter = some C →
        compare_embeddings sim query qemb top_k inc filter (some lines)
          = .ok (rankedList sim query qemb top_k inc filter lines) := by
  constructor
  · rw [compare_embeddings]
    split
    case isTrue h =>
      obtain ⟨h1, h2⟩ := h
      subst h2
      simp [h1]
    case isFalse h => simp [h]
  · intro C hC
    subst hC
    rw [compare_embeddings, if_neg (by simp)]

/-- Claim C4 witness: with a filter supplied and zero matching records, the
call returns an ordinary empty list, not an error. -/
theorem empty_result_asymmetry_witness :
    ((some "c" : Option String) = some "c")
    ∧ compare_embeddings (fun _ _ => (0 : ℚ)) "q" [] none false (some "c") (some [])
        = .ok (rankedList (fun _ _ => (0 : ℚ)) "q" [] none false (some "c") []) :=
  ⟨rfl, (empty_result_asymmetry (fun _ _ => (0 : ℚ)) "q" [] none false
    (some "c") []).2 "c" rfl⟩

/-- Claim C5 counterexample: the read step of `compare_embeddings`
(service.rs:95, `std::fs::read_to_string(..)?`) does NOT treat a missing log
file as an empty store: with the file absent the call fails with an io error,
while on an existing empty store the same call returns an empty list. -/
theorem missing_file_is_error_in_rank :
    compare_embeddings (fun _ _ => (0 : ℚ)) "q" [] none false (some "user") none
      = .error .ioError
    ∧ compare_embeddings (fun _ _ => (0 : ℚ)) "q" [] none false (some "user") (some [])
      = .ok [] :=
  ⟨rfl, rfl⟩

/-- Claim C5 (amended): `append`'s duplicate scan treats a missing log file as
an empty store (storage.rs:13-22 guards the read with an existence check, so
the append succeeds and writes the record), but `rank`'s read step does not:
`compare_embeddings` on an absent file always fails with the io error of the
unguarded `read_to_string` (service.rs:95). -/
theorem missing_file_behavior :
    (∀ (t : String) (emb : List ℚ) (m ty : String),
        save_embedding_to_jsonl t emb none m ty = .ok [recordLine t emb m ty])
    ∧ ∀ (sim : List ℚ → List ℚ → ℚ) (query : String) (qemb : List ℚ)
        (top_k : Option Nat) (inc : Bool) (filter : Option String),
          compare_embeddings sim query qemb top_k inc filter none = .error .ioError :=
  ⟨fun _ _ _ _ => rfl, fun _ _ _ _ _ _ => rfl⟩

/-- Claim C6 counterexample: a log line that fails to parse does NOT make
`rank` fail: on a log holding one malformed line and one good record, the
call silently skips the malformed line (service.rs:101 uses
`.filter_map(.. .ok())`) and returns the good record. -/
theorem malformed_line_skipped_in_rank :
    compare_embeddings (fun _ _ => (0 : ℚ)) "q" [] none false none
        (some [Line.malformed,
               Line.valid ⟨some "a", some [1], some "m", some "t"⟩])
      = .ok [⟨"a", 0, none, "t"⟩] := by
  decide

/-- Claim C6 (amended): in `append`'s duplicate scan an unparseable line is a
fatal read error for the whole call (storage.rs:19, the `?` on
`serde_json::from_str`), but in `rank` unparseable lines are silently
skipped: the call behaves exactly as if those lines were absent. -/
theorem malformed_line_behavior :
    (∀ (t : String) (emb : List ℚ) (m ty : String) (lines : List Line),
        Line.malformed ∈ lines →
        save_embedding_to_jsonl t emb (some lines) m ty = .error .malformedLog)
    ∧ ∀ (sim : List ℚ → List ℚ → ℚ) (query : String) (qemb : List ℚ)
        (top_k : Option Nat) (inc : Bool) (filter : Option String) (lines : List Line),
          compare_embeddings sim query qemb top_k inc filter (some lines)
            = compare_embeddings sim query qemb top_k inc filter
                (some (lines.filter (fun l => (lineView l).isSome))) := by
  constructor
  · intro t emb m ty lines h
    rw [save_embedding_to_jsonl, parseAllLines_malformed lines h]
  · intro sim query qemb top_k inc filter lines
    have hr : rankedList sim query qemb top_k inc filter
        (lines.filter (fun l => (lineView l).isSome))
        = rankedList sim query qemb top_k inc filter lines := by
      simp only [rankedList, parsedEntries_filter_isSome]
    rw [compare_embeddings, compare_embeddings, hr]

/-- Claim C6 witness: the amended fatal-error half at a concrete input. -/
theorem malformed_line_behavior_witness :
    Line.malformed ∈ [Line.malformed]
    ∧ save_embedding_to_jsonl "a" [1] (some [Line.malformed]) "m" "t"
        = .error .malformedLog :=
  ⟨by decide, malformed_line_behavior.1 "a" [1] "m" "t" [Line.malformed] (by decide)⟩

/-- Claim C9 (modelled from the spec, see `cosine_similarity`): when either
vector has zero norm the similarity is the deterministic fallback value 0. -/
theorem cosine_zero_norm_fallback (a b : List ℝ)
    (h : normList a = 0 ∨ normList b = 0) :
    cosine_similarity a b = 0 := by
  rw [cosine_similarity, if_pos h]

/-- Claim C9 witness: the zero vector `[0]` against `[1]`. -/
theorem cosine_zero_norm_fallback_witness :
    (normList [(0 : ℝ)] = 0 ∨ normList [(1 : ℝ)] = 0)
    ∧ cosine_similarity [(0 : ℝ)] [(1 : ℝ)] = 0 := by
  have h0 : normList [(0 : ℝ)] = 0 := by
    simp [normList, dotList]
  exact ⟨Or.inl h0, cosine_zero_norm_fallback _ _ (Or.inl h0)⟩

/-- Claim C10: when every similarity value handed to the sort of
service.rs:146 is non-NaN, the `partial_cmp(..).unwrap()` comparator never
hits its failure branch: the sort completes with a result instead of
panicking. -/
theorem sort_unwrap_total (l : List FVal) (h : ∀ y ∈ l, y ≠ FVal.nan) :
    ∃ s, fsortByDesc l = some s := by
  obtain ⟨s, hs, -⟩ := fsortByDesc_total' h
  exact ⟨s, hs⟩

/-- Claim C10 witness: a concrete non-NaN similarity list sorts successfully. -/
theorem sort_unwrap_total_witness :
    (∀ y ∈ [FVal.num 1, FVal.num 0, FVal.num 1], y ≠ FVal.nan)
    ∧ ∃ s, fsortByDesc [FVal.num 1, FVal.num 0, FVal.num 1] = some s :=
  ⟨by decide, sort_unwrap_total _ (by decide)⟩

/-- Claim C1: starting from no log file, after any sequence of `append` calls
no two records in the store share the same `(text, embedding_type)` key, and
an `append` whose key already exists in the log returns the duplicate error
and leaves the store unchanged — whatever its `model` and `embedding` are,
since the duplicate scan of storage.rs:24-27 compares only `text` and
`embedding_type`. -/
theorem append_unique_keys (reqs : List AppendReq) :
    (entryKeys (storeLines (runAppends none reqs))).Nodup
    ∧ ∀ r : AppendReq,
        (∃ e ∈ (storeLines (runAppends none reqs)).filterMap lineView,
            e.text = some r.text ∧ e.embedding_type = some r.embedding_type) →
          save_embedding_to_jsonl r.text r.embedding (runAppends none reqs) r.model
              r.embedding_type = .error .duplicate
          ∧ stepAppend (runAppends none reqs) r = runAppends none reqs := by
  have hg : GoodStore (runAppends none reqs) := runAppends_good reqs trivial
  constructor
  · cases hst : runAppends none reqs with
    | none => simp [storeLines, entryKeys, parsedEntries]
    | some lines =>
      rw [hst] at hg
      exact hg.2
  · intro r hmem
    have hdup := save_duplicate_of_mem hg hmem
    refine ⟨hdup, ?_⟩
    rw [stepAppend, hdup]

/-- Claim C1 witness: after appending `("a", "t")`, a second append of the
same key with a different model and vector is rejected as a duplicate and the
store is unchanged. -/
theorem append_unique_keys_witness :
    (∃ e ∈ (storeLines (runAppends none [⟨"a", [1], "m", "t"⟩])).filterMap lineView,
        e.text = some (AppendReq.text ⟨"a", [2], "m2", "t"⟩)
        ∧ e.embedding_type = some (AppendReq.embedding_type ⟨"a", [2], "m2", "t"⟩))
    ∧ (save_embedding_to_jsonl (AppendReq.text ⟨"a", [2], "m2", "t"⟩)
          (AppendReq.embedding ⟨"a", [2], "m2", "t"⟩)
          (runAppends none [⟨"a", [1], "m", "t"⟩])
          (AppendReq.model ⟨"a", [2], "m2", "t"⟩)
          (AppendReq.embedding_type ⟨"a", [2], "m2", "t"⟩) = .error .duplicate
       ∧ stepAppend (runAppends none [⟨"a", [1], "m", "t"⟩]) ⟨"a", [2], "m2", "t"⟩
          = runAppends none [⟨"a", [1], "m", "t"⟩]) :=
  ⟨by decide, (append_unique_keys [⟨"a", [1], "m", "t"⟩]).2 ⟨"a", [2], "m2", "t"⟩ (by decide)⟩

/-- Claim C2: with `top_k = some k` supplied, a successful `rank` returns
exactly `min k (number of surviving candidates)` results and every retained
entry's similarity is at least every excluded entry's similarity (the
candidates not retained are the dropped tail of the sorted list); with
`top_k = none` all surviving candidates are returned (as a permutation —
namely the sorted one — of the candidate list). -/
theorem topk_truncation (sim : List ℚ → List ℚ → ℚ) (query : String)
    (qemb : List ℚ) (inc : Bool) (filter : Option String) (lines : List Line) :
    (∀ (k : Nat) (res : List ComparisonResult),
        compare_embeddings sim query qemb (some k) inc filter (some lines) = .ok res →
          res.length
              = min k (collectSims sim query qemb inc filter (parsedEntries lines) []).length
          ∧ ∀ a ∈ res,
              ∀ b ∈ (sortDesc (collectSims sim query qemb inc filter
                  (parsedEntries lines) [])).drop k,
                b.similarity ≤ a.similarity)
    ∧ ∀ res, compare_embeddings sim query qemb none inc filter (some lines) = .ok res →
        res.Perm (collectSims sim query qemb inc filter (parsedEntries lines) []) := by
  constructor
  · intro k res hok
    obtain ⟨rfl, -⟩ := compare_ok_iff.mp hok
    have h1 : rankedList sim query qemb (some k) inc filter lines
        = (sortDesc (collectSims sim query qemb inc filter (parsedEntries lines) [])).take k := rfl
    rw [h1]
    constructor
    · rw [List.length_take,
        (sortDesc_perm (collectSims sim query qemb inc filter (parsedEntries lines) [])).length_eq]
    · intro a ha b hb
      have hpw := sortDesc_pairwise (collectSims sim query qemb inc filter (parsedEntries lines) [])
      rw [← List.take_append_drop k
        (sortDesc (collectSims sim query qemb inc filter (parsedEntries lines) []))] at hpw
      exact (List.pairwise_append.mp hpw).2.2 a ha b hb
  · intro res hok
    obtain ⟨rfl, -⟩ := compare_ok_iff.mp hok
    have h1 : rankedList sim query qemb none inc filter lines
        = sortDesc (collectSims sim query qemb inc filter (parsedEntries lines) []) := rfl
    rw [h1]
    exact sortDesc_perm _

/-- Claim C2 witness: one stored record, `top_k = 1`. -/
theorem topk_truncation_witness :
    (compare_embeddings (fun _ _ => (0 : ℚ)) "q" [1] (some 1) false none
        (some [Line.valid ⟨some "a", some [1], some "m", some "t"⟩])
      = .ok [⟨"a", 0, none, "t"⟩])
    ∧ ([(⟨"a", 0, none, "t"⟩ : ComparisonResult)].length
        = min 1 (collectSims (fun _ _ => (0 : ℚ)) "q" [1] false none
            (parsedEntries [Line.valid ⟨some "a", some [1], some "m", some "t"⟩]) []).length
      ∧ ∀ a ∈ [(⟨"a", 0, none, "t"⟩ : ComparisonResult)],
          ∀ b ∈ (sortDesc (collectSims (fun _ _ => (0 : ℚ)) "q" [1] false none
              (parsedEntries [Line.valid ⟨some "a", some [1], some "m", some "t"⟩]) [])).drop 1,
            b.similarity ≤ a.similarity) :=
  ⟨by decide, (topk_truncation (fun _ _ => (0 : ℚ)) "q" [1] false none
    [Line.valid ⟨some "a", some [1], some "m", some "t"⟩]).1 1 _ (by decide)⟩

/-- Claim C3: with a category filter `C` supplied, every returned result's
category equals `C` exactly (the comparison of service.rs:122 is plain string
equality, no normalization). -/
theorem category_filter_exact (sim : List ℚ → List ℚ → ℚ) (query : String)
    (qemb : List ℚ) (top_k : Option Nat) (inc : Bool) (C : String)
    (lines : List Line) (res : List ComparisonResult)
    (h : compare_embeddings sim query qemb top_k inc (some C) (some lines) = .ok res) :
    ∀ r ∈ res, r.embedding_type = C := by
  obtain ⟨rfl, -⟩ := compare_ok_iff.mp h
  intro r hr
  have hr' : r ∈ sortDesc (collectSims sim query qemb inc (some C) (parsedEntries lines) []) := by
    cases top_k with
    | some k => exact List.take_subset k _ hr
    | none => exact hr
  exact mem_collectSims_type ((sortDesc_perm _).mem_iff.mp hr')

/-- Claim C3 witness: filter "t" returns only records of category "t". -/
theorem category_filter_exact_witness :
    (compare_embeddings (fun _ _ => (0 : ℚ)) "q" [1] none false (some "t")
        (some [Line.valid ⟨some "a", some [1], some "m", some "t"⟩])
      = .ok [⟨"a", 0, none, "t"⟩])
    ∧ ∀ r ∈ [(⟨"a", 0, none, "t"⟩ : ComparisonResult)], r.embedding_type = "t" :=
  ⟨by decide, category_filter_exact (fun _ _ => (0 : ℚ)) "q" [1] none false "t"
    [Line.valid ⟨some "a", some [1], some "m", some "t"⟩] _ (by decide)⟩

/-- Claim C7: a stored record is excluded as a self-match precisely when (it
is the first occurrence of its key and) its text equals the query text and a
category filter is supplied that equals the record's category; with no filter
supplied the self-check of service.rs:116 can never fire, so the whole
collection loop behaves exactly like the loop with the self-check deleted
and a record matching the query text is ranked like any other. -/
theorem self_exclusion_rule (query : String) :
    (∀ (filter : Option String) (seen : List String) (e : Entry),
        entryDecision query filter seen e = .skipSelf ↔
          (entryKey e ∉ seen ∧ e.text.getD "" = query
            ∧ filter = some (e.embedding_type.getD "")))
    ∧ (∀ (sim : List ℚ → List ℚ → ℚ) (qemb : List ℚ) (inc : Bool)
        (es : List Entry) (seen : List String),
          collectSims sim query qemb inc none es seen
            = collectNoSelf sim qemb inc none es seen)
    ∧ ∀ (seen : List String) (e : Entry) (v : List ℚ),
        entryKey e ∉ seen → e.embedding = some v →
        entryDecision query none seen e = .keep v := by
  refine ⟨?_, ?_, ?_⟩
  · intro filter seen e
    constructor
    · intro h
      unfold entryDecision at h
      split at h
      · exact absurd h (by simp)
      case isFalse hseen =>
        split at h
        case isTrue hself => exact ⟨hseen, hself.1, hself.2⟩
        · split at h
          · exact absurd h (by simp)
          · split at h <;> exact absurd h (by simp)
    · rintro ⟨hseen, ht, hf⟩
      unfold entryDecision
      rw [if_neg hseen, if_pos ⟨ht, hf⟩]
  · exact fun sim qemb inc es seen => collectSims_none_eq_noSelf sim query qemb inc es seen
  · intro seen e v hseen hv
    unfold entryDecision
    rw [if_neg hseen, if_neg (by simp), if_neg (by simp [filterSkips]), hv]

/-- Claim C7 witness: with no filter supplied, a first-occurrence record whose
text equals the query is still kept as a candidate. -/
theorem self_exclusion_rule_witness :
    (entryKey ⟨some "q", some [1], some "m", some "t"⟩ ∉ ([] : List String))
    ∧ (Entry.embedding ⟨some "q", some [1], some "m", some "t"⟩ = some [1])
    ∧ entryDecision "q" none [] ⟨some "q", some [1], some "m", some "t"⟩ = .keep [1] :=
  ⟨by decide, by decide,
    (self_exclusion_rule "q").2.2 [] ⟨some "q", some [1], some "m", some "t"⟩ [1]
      (by decide) (by decide)⟩

/-- Claim C8: a successful `rank` result is sorted by similarity descending,
and the sort is stable: for each similarity value `s`, the returned entries of
similarity `s` are an initial segment (all of it when no `top_k` truncation
applies) of the candidate list's entries of similarity `s`, which the
collection loop produced in source-log enumeration order (first occurrence of
each key kept). -/
theorem stable_sort_order (sim : List ℚ → List ℚ → ℚ) (query : String)
    (qemb : List ℚ) (top_k : Option Nat) (inc : Bool) (filter : Option String)
    (lines : List Line) (res : List ComparisonResult)
    (h : compare_embeddings sim query qemb top_k inc filter (some lines) = .ok res) :
    List.Pairwise (fun a b => b.similarity ≤ a.similarity) res
    ∧ ∀ s : ℚ,
        (∃ rest, res.filter (fun r => decide (r.similarity = s)) ++ rest
            = (collectSims sim query qemb inc filter (parsedEntries lines) []).filter
                (fun r => decide (r.similarity = s)))
        ∧ (top_k = none →
            res.filter (fun r => decide (r.similarity = s))
              = (collectSims sim query qemb inc filter (parsedEntries lines) []).filter
                  (fun r => decide (r.similarity = s))) := by
  obtain ⟨rfl, -⟩ := compare_ok_iff.mp h
  cases top_k with
  | none =>
    have h1 : rankedList sim query qemb none inc filter lines
        = sortDesc (collectSims sim query qemb inc filter (parsedEntries lines) []) := rfl
    rw [h1]
    exact ⟨sortDesc_pairwise _, fun s =>
      ⟨⟨[], by rw [List.append_nil, sortDesc_filter]⟩, fun _ => sortDesc_filter _ s⟩⟩
  | some k =>
    have h1 : rankedList sim query qemb (some k) inc filter lines
        = (sortDesc (collectSims sim query qemb inc filter (parsedEntries lines) [])).take k := rfl
    rw [h1]
    constructor
    · exact (sortDesc_pairwise _).sublist (List.take_sublist _ _)
    · intro s
      refine ⟨⟨((sortDesc (collectSims sim query qemb inc filter
          (parsedEntries lines) [])).drop k).filter (fun r => decide (r.similarity = s)), ?_⟩,
        fun hcon => absurd hcon (by simp)⟩
      rw [← List.filter_append, List.take_append_drop, sortDesc_filter]

/-- Claim C8 witness: one stored record, no truncation. -/
theorem stable_sort_order_witness :
    (compare_embeddings (fun _ _ => (0 : ℚ)) "q" [1] none false none
        (some [Line.valid ⟨some "a", some [1], some "m", some "t"⟩])
      = .ok [⟨"a", 0, none, "t"⟩])
    ∧ (List.Pairwise (fun a b => b.similarity ≤ a.similarity)
          [(⟨"a", 0, none, "t"⟩ : ComparisonResult)]
      ∧ ∀ s : ℚ,
          (∃ rest, [(⟨"a", 0, none, "t"⟩ : ComparisonResult)].filter
                (fun r => decide (r.similarity = s)) ++ rest
              = (collectSims (fun _ _ => (0 : ℚ)) "q" [1] false none
                  (parsedEntries [Line.valid ⟨some "a", some [1], some "m", some "t"⟩]) []).filter
                  (fun r => decide (r.similarity = s)))
          ∧ ((none : Option Nat) = none →
              [(⟨"a", 0, none, "t"⟩ : ComparisonResult)].filter
                  (fun r => decide (r.similarity = s))
                = (collectSims (fun _ _ => (0 : ℚ)) "q" [1] false none
                    (parsedEntries [Line.valid ⟨some "a", some [1], some "m", some "t"⟩]) []).filter
                    (fun r => decide (r.similarity = s)))) :=
  ⟨by decide, stable_sort_order (fun _ _ => (0 : ℚ)) "q" [1] none false none
    [Line.valid ⟨some "a", some [1], some "m", some "t"⟩] _ (by decide)⟩

end RustEmbedding
